import Mathlib

/-!
Shallow embedding of the World orchestration code of the Splash repository
(file `src/src/world.cpp`): the configuration apply pass (`World::applyConfig`),
the steady-state run loop (`World::run`), the configuration loader
(`World::loadConfig` and the `loadConfig` attribute), and the task-registered
attribute handlers `deleteObject`, `renameObject` and `framerate`
(`World::registerAttributes`).

Maps (`std::map` / `std::unordered_map`) are embedded either as association
lists (when the code iterates over them) or as functions `String → Option _`
(when only lookup / insert / erase matter).  `std::map` iterates its keys in
lexicographic order while the association lists keep registration order; no
property stated below depends on the iteration order inside one loop.
Environment-dependent outcomes (whether a spawned scene delivers its
`sceneLaunched` acknowledgment within the 5 s timeout, the pid stored by
`posix_spawn`, whether a Json accessor throws for a given entry, whether a
scene answers the `start` request) are fields of the embedded configuration
entries, supplied by the environment.
-/

namespace Splash

/-- Destination of a control message: the broadcast marker `SPLASH_ALL_PEERS`
or a specific peer name. -/
inductive Dest where
  | all : Dest
  | to (name : String) : Dest
deriving DecidableEq

/-- Control-channel events emitted during a configuration apply:
`msg` is a fire-and-forget `sendMessage`, `msgAnswer` is a blocking
`sendMessageWithAnswer` round trip (the call returns before the next
event is emitted). -/
inductive Ev where
  | msg (dest : Dest) (attr : String) : Ev
  | msgAnswer (dest : Dest) (attr : String) : Ev
deriving DecidableEq

/-- Concatenation of the lists produced by `f` over a list, in order
(the embedding's flat-map over event lists). -/
def listFlat {α β : Type} (f : α → List β) : List α → List β
  | [] => []
  | a :: rest => f a ++ listFlat f rest

/-- Association-list lookup, mirroring `std::map::find`. -/
def alookup {β : Type} (k : String) : List (String × β) → Option β
  | [] => none
  | e :: rest => if e.1 = k then some e.2 else alookup k rest

/-- Association-list insertion-or-assignment, mirroring `std::map::operator[]`
followed by assignment: an existing key is overwritten in place, a new key is
appended. -/
def mapInsert {β : Type} (k : String) (v : β) : List (String × β) → List (String × β)
  | [] => [(k, v)]
  | e :: rest => if e.1 = k then (e.1, v) :: rest else e :: mapInsert k v rest

/-- One entry of the configuration document's `scenes` list, together with the
environment-dependent outcomes of processing it in `World::applyConfig`:
`isLocal` is `address` absent or `"localhost"`; `hasName` is
`isMember("name")`; `spawn` is the `spawn` member (default 1); `launched`
tells whether the `sceneLaunched` acknowledgment arrives within the 5 s
timeout; `pid` is the value stored by `posix_spawn` (-1 for an inner scene or
for `spawn == 0`); `throws` tells whether a Json accessor throws while this
entry is processed; `params` are the entry's member names, each sent as one
message to the new scene. -/
structure SceneCfg where
  isLocal : Bool
  hasName : Bool
  name : String
  spawn : Int
  launched : Bool
  pid : Int
  throws : Bool
  params : List String
deriving DecidableEq

/-- The part of the `World` state read and written by `World::applyConfig`:
the worker registry `_scenes` (name to pid), `_masterSceneName` and the
shutdown flag `_quit`. -/
structure WState where
  scenes : List (String × Int)
  masterSceneName : String
  quit : Bool
deriving DecidableEq

/-- `World::applyConfig` first destroys all scenes and objects:
`_scenes.clear(); _objects.clear(); _objectDest.clear(); _masterSceneName = ""`. -/
def clearState (st : WState) : WState :=
  { st with scenes := [], masterSceneName := "" }

/-- How the scene-creation loop of `World::applyConfig` ended: it ran through
all entries (`done`), hit one of the early `return` statements (`ret`), or an
exception escaped to the `catch` at the apply boundary (`exn`). -/
inductive LoopExit where
  | done : LoopExit
  | ret : LoopExit
  | exn : LoopExit
deriving DecidableEq

/-- Registration of a newly created scene: `_scenes[name] = pid` and, when no
master is set yet (`_masterSceneName == ""`), the scene becomes the master. -/
def registerScene (c : SceneCfg) (st : WState) : WState :=
  { st with
    scenes := mapInsert c.name c.pid st.scenes,
    masterSceneName := if st.masterSceneName = "" then c.name else st.masterSceneName }

/-- The scene-creation loop of `World::applyConfig` (world.cpp lines 233-365),
returning the updated state, how the loop exited, and the messages sent.
Per entry: a throwing Json accessor escapes to the catch; a non-local scene
is skipped with a warning; a missing name logs an error and returns; for
`spawn > 0` the call blocks on the `sceneLaunched` acknowledgment for 5 s and
on timeout sets `_quit = true` and returns; otherwise the scene is registered,
the link is connected and every member of the entry is sent as one message. -/
def processScenes : List SceneCfg → WState → WState × LoopExit × List Ev
  | [], st => (st, LoopExit.done, [])
  | c :: rest, st =>
    if c.throws then (st, LoopExit.exn, [])
    else if ¬ c.isLocal then processScenes rest st
    else if ¬ c.hasName then (st, LoopExit.ret, [])
    else if 0 < c.spawn ∧ c.launched = false then ({ st with quit := true }, LoopExit.ret, [])
    else
      let r := processScenes rest (registerScene c st)
      (r.1, r.2.1, (c.params.map fun p => Ev.msg (Dest.to c.name) p) ++ r.2.2)

/-- A scene-list entry on which the scene-creation loop proceeds to the next
entry: no accessor throws and, when local, it has a name and (when spawned)
delivers the `sceneLaunched` acknowledgment in time. -/
def Proceeds (c : SceneCfg) : Prop :=
  c.throws = false ∧ (c.isLocal = true → c.hasName = true ∧ (0 < c.spawn → c.launched = true))

instance : DecidablePred Proceeds := by
  intro c
  unfold Proceeds
  infer_instance

/-- One object member of a per-scene section of the configuration document:
its member name, whether it has a `type` member, the type, and the names of
all of its members (attribute configuration). -/
structure ObjCfg where
  name : String
  hasType : Bool
  type : String
  attrs : List String
deriving DecidableEq

/-- The per-scene section of the configuration document: the object members
and the content of the `links` member (each link an argument list, sent only
when it has at least two entries). -/
structure SceneDoc where
  objs : List ObjCfg
  links : List (List String)

/-- The in-memory configuration document as consumed by `World::applyConfig`:
whether a `scenes` member exists, the scene entries, and the per-scene
sections keyed by scene name. -/
structure Config where
  hasScenes : Bool
  scenes : List SceneCfg
  content : String → Option SceneDoc

/-- Object-creation messages for one scene (world.cpp lines 372-406): for each
object member that is not named `links` and has a type other than `scene`, one
broadcast `add` message; then the three default-directory broadcasts. -/
def addObjectsSceneTrace (sname : String) (cfg : Config) : List Ev :=
  match cfg.content sname with
  | none => []
  | some doc =>
    (listFlat (fun o =>
      if o.name = "links" ∨ o.hasType = false then []
      else if o.type ≠ "scene" then [Ev.msg Dest.all "add"] else []) doc.objs)
    ++ [Ev.msg Dest.all "configurationPath", Ev.msg Dest.all "mediaPath",
        Ev.msg Dest.all "runInBackground"]

/-- Object-creation messages over all registered scenes. -/
def addObjectsTrace (scenes : List (String × Int)) (cfg : Config) : List Ev :=
  listFlat (fun s => addObjectsSceneTrace s.1 cfg) scenes

/-- The sync barrier (world.cpp lines 408-410): one blocking `sync` round trip
per registered scene, so that all prior `add` messages are materialized. -/
def syncTrace (scenes : List (String × Int)) : List Ev :=
  scenes.map fun s => Ev.msgAnswer (Dest.to s.1) "sync"

/-- Link messages for one scene (world.cpp lines 413-438): one broadcast
`link` message per entry of the `links` member that has at least two items. -/
def linkSceneTrace (sname : String) (cfg : Config) : List Ev :=
  match cfg.content sname with
  | none => []
  | some doc =>
    listFlat (fun l => if l.length < 2 then [] else [Ev.msg Dest.all "link"]) doc.links

/-- Link messages over all registered scenes. -/
def linkTrace (scenes : List (String × Int)) (cfg : Config) : List Ev :=
  listFlat (fun s => linkSceneTrace s.1 cfg) scenes

/-- Attribute-configuration messages for one scene (world.cpp lines 441-488):
for each object member that is not named `links` and has a type, one message
per member other than `type`, addressed to the object. -/
def configureSceneTrace (sname : String) (cfg : Config) : List Ev :=
  match cfg.content sname with
  | none => []
  | some doc =>
    listFlat (fun o =>
      if o.name = "links" ∨ o.hasType = false then []
      else listFlat (fun a => if a = "type" then [] else [Ev.msg (Dest.to o.name) a]) o.attrs)
      doc.objs

/-- Attribute-configuration messages over all registered scenes. -/
def configureTrace (scenes : List (String × Int)) (cfg : Config) : List Ev :=
  listFlat (fun s => configureSceneTrace s.1 cfg) scenes

/-- The start loop of `World::applyConfig` (world.cpp lines 521-530): one
blocking `start` round trip per scene with a 2 s timeout; an empty answer sets
`_quit = true` and breaks out of the loop.  `answers s` tells whether scene
`s` answers in time. -/
def startPhase (answers : String → Bool) : List (String × Int) → WState → WState × List Ev
  | [], st => (st, [])
  | s :: rest, st =>
    if answers s.1 then
      let r := startPhase answers rest st
      (r.1, Ev.msgAnswer (Dest.to s.1) "start" :: r.2)
    else ({ st with quit := true }, [Ev.msgAnswer (Dest.to s.1) "start"])

/-- `World::applyConfig` (world.cpp lines 212-531): clear the previous scene
and object registries, bail out when the document has no `scenes` member,
run the scene-creation loop, and — only when that loop ran through — send the
`setMaster` message, the object-creation messages, the per-scene `sync`
barrier, the `link` messages, the attribute-configuration messages and
finally the `start` round trips.  An early `return` and a caught exception
both leave the function with the state reached so far.  The world-section
attributes are applied locally via `setAttribute` between the configure and
start phases; they touch none of the state modelled here and send no
synchronous message, so they contribute nothing to the trace. -/
def applyConfig (cfg : Config) (answers : String → Bool) (st : WState) : WState × List Ev :=
  let st0 := clearState st
  if cfg.hasScenes then
    match processScenes cfg.scenes st0 with
    | (st1, LoopExit.done, tr1) =>
      let tr2 := tr1 ++ [Ev.msg (Dest.to st1.masterSceneName) "setMaster"]
        ++ addObjectsTrace st1.scenes cfg ++ syncTrace st1.scenes
        ++ linkTrace st1.scenes cfg ++ configureTrace st1.scenes cfg
      let r := startPhase answers st1.scenes st1
      (r.1, tr2 ++ r.2)
    | (st1, LoopExit.ret, tr1) => (st1, tr1)
    | (st1, LoopExit.exn, tr1) => (st1, tr1)
  else (st0, [])

/-- A buffer-backed object of the World-side shadow table `_objects` as seen
by the run loop: its distant name (the key under which the serialized payload
travels), its own name, the dirty flag `_updatedBuffer` read by `wasUpdated`,
the payload `serialize()` would currently return (modelled from the spec: the
`serialize` bodies of the image / mesh classes are outside `src/`; the null
guard `if (obj)` of world.cpp is kept by letting it be an `Option`), and the
attribute names `getDistantAttributes` currently reports. -/
structure BufObj where
  distantName : String
  name : String
  wasUpdated : Bool
  serialized : Option Nat
  distantAttrs : List String
deriving DecidableEq

/-- Buffer-transport events of one run-loop iteration: the bounded
`waitForBufferSending` (argument in milliseconds), an asynchronous
`sendBuffer` dispatch, and control messages. -/
inductive LEv where
  | wait (ms : Nat) : LEv
  | sendBuffer (name : String) (payload : Nat) : LEv
  | msg (dest : Dest) (attr : String) : LEv
deriving DecidableEq

/-- The serialization fan-out of `World::run` (world.cpp lines 84-115), with
the map built so far as accumulator.  Per object: the pair
`(distantName, nullptr)` is emplaced — when the key already exists the object
is skipped entirely (`continue`) — then the object is updated and, when its
dirty flag is set, `serialize()` is called, `setNotUpdated()` clears the flag
and a non-null result replaces the map entry.  Returns the map and the
objects after their update step. -/
def fanOutAux (acc : List (String × Option Nat)) : List BufObj → List (String × Option Nat) × List BufObj
  | [] => (acc, [])
  | o :: rest =>
    if (alookup o.distantName acc).isSome then
      let r := fanOutAux acc rest
      (r.1, o :: r.2)
    else
      let entry : Option Nat := if o.wasUpdated then o.serialized else none
      let o' := if o.wasUpdated then { o with wasUpdated := false } else o
      let r := fanOutAux (acc ++ [(o.distantName, entry)]) rest
      (r.1, o' :: r.2)

/-- The serialization fan-out starting from the empty map, as in the loop body. -/
def fanOut (objs : List BufObj) : List (String × Option Nat) × List BufObj :=
  fanOutAux [] objs

/-- An object after the fan-out's update step: `setNotUpdated` was called
exactly when the dirty flag was set. -/
def clearFlag (o : BufObj) : BufObj :=
  if o.wasUpdated then { o with wasUpdated := false } else o

/-- The map entry the fan-out records for a distant name: that of the first
object in table order carrying the name — the first `emplace` wins, a later
object with the same distant name is skipped by the `continue` of world.cpp
line 96 (helper for stating the fan-out's behaviour). -/
def firstEntry (k : String) : List BufObj → Option (Option Nat)
  | [] => none
  | o :: rest =>
    if o.distantName = k then some (if o.wasUpdated then o.serialized else none)
    else firstEntry k rest

/-- The payload the fan-out map holds for a distant name, if any (a `nullptr`
entry holds none). -/
def producedPayload (m : List (String × Option Nat)) (n : String) : Option Nat :=
  (alookup n m).bind id

/-- The dispatch loop of `World::run` (world.cpp lines 124-126): one
`sendBuffer` per non-null map entry, in map order. -/
def bufferSends (m : List (String × Option Nat)) : List LEv :=
  listFlat (fun e => match e.2 with
    | some p => [LEv.sendBuffer e.1 p]
    | none => []) m

/-- The distant-attribute propagation of `World::run` (world.cpp lines
130-137): one message per changed attribute, addressed to the object. -/
def distantAttrMsgs (objs : List BufObj) : List LEv :=
  listFlat (fun o => o.distantAttrs.map fun a => LEv.msg (Dest.to o.name) a) objs

/-- Per-iteration environment of the run loop: the timing samples and new log
lines to relay, and whether a master clock value is available. -/
structure RunEnv where
  durations : List String
  logs : List String
  hasMasterClock : Bool

/-- The part of the `World` state the run-loop body touches. -/
structure RunState where
  objects : List BufObj
  scenes : List (String × Int)
  masterSceneName : String
  quit : Bool
deriving DecidableEq

/-- The telemetry relay of `World::run` (world.cpp lines 142-154): timing
samples, the optional master clock, and new log lines, all to the master
scene. -/
def telemetryTrace (env : RunEnv) (master : String) : List LEv :=
  env.durations.map (fun _ => LEv.msg (Dest.to master) "duration")
  ++ (if env.hasMasterClock then [LEv.msg (Dest.to master) "masterClock"] else [])
  ++ env.logs.map (fun _ => LEv.msg (Dest.to master) "log")

/-- One iteration of the `World::run` loop body (world.cpp lines 70-171),
returning the new state and the events in program order: the serialization
fan-out (transport-silent), then `waitForBufferSending` bounded by
1e3 milliseconds, then the `sendBuffer` dispatches of the payloads just
serialized, then the distant-attribute messages, then — unless the master
scene is an inner scene, i.e. `_scenes[_masterSceneName] != -1`, where
`operator[]` default-inserts pid 0 for an unknown master name — the
telemetry relay, and finally, when `_quit` is set, the `quit` broadcast. -/
def runIteration (env : RunEnv) (st : RunState) : RunState × List LEv :=
  let r := fanOut st.objects
  let scenes2 := if (alookup st.masterSceneName st.scenes).isNone
    then mapInsert st.masterSceneName 0 st.scenes else st.scenes
  let masterPid := (alookup st.masterSceneName scenes2).getD 0
  let telem := if masterPid ≠ -1 then telemetryTrace env st.masterSceneName else []
  let quitTr := if st.quit then scenes2.map (fun s => LEv.msg (Dest.to s.1) "quit") else []
  ({ st with objects := r.2, scenes := scenes2 },
   LEv.wait 1000 :: bufferSends r.1 ++ distantAttrMsgs r.2 ++ telem ++ quitTr)

/-- The in-memory configuration document as far as `World::loadConfig`
inspects it: the value of its `description` member, when present. -/
structure JsonDoc where
  description : Option String
deriving DecidableEq

/-- The configuration description marker.  Modelled from the spec: the
constant `SPLASH_FILE_CONFIGURATION` is defined in a header outside `src/`;
only its equality with a document's `description` member matters here. -/
def SPLASH_FILE_CONFIGURATION : String := "splashConfiguration"

/-- File-system and parser environment of `World::loadJsonFile`: the readable
files and their contents, the parser, and the directory part of a path
(`Utils::getPathFromFilePath`). -/
structure FileEnv where
  read : String → Option String
  parse : String → Option JsonDoc
  dirOf : String → String

/-- `World::loadJsonFile` (world.cpp lines 964-995): read the whole file, then
parse it; either step failing yields nothing (the out-parameter is assigned
only after a successful parse). -/
def loadJsonFile (env : FileEnv) (filename : String) : Option JsonDoc :=
  (env.read filename).bind env.parse

/-- The part of the `World` state read and written by the configuration
loader. -/
structure CfgState where
  config : JsonDoc
  configFilename : String
  configurationPath : String
  mediaPath : String
deriving DecidableEq

/-- `World::loadConfig` (world.cpp lines 998-1010): load and parse the file,
check that the document carries the configuration description marker, and
only then record the filename and derived paths.  Returns the success flag,
the updated state, and the value left in the caller's out-parameter (assigned
by `loadJsonFile` as soon as parsing succeeds, even when the marker check
then fails). -/
def loadConfig (env : FileEnv) (filename : String) (st : CfgState) :
    Bool × CfgState × Option JsonDoc :=
  match loadJsonFile env filename with
  | none => (false, st, none)
  | some cfg =>
    if cfg.description = some SPLASH_FILE_CONFIGURATION then
      (true, { st with
        configFilename := filename,
        configurationPath := env.dirOf filename,
        mediaPath := env.dirOf filename }, some cfg)
    else (false, st, some cfg)

/-- The `loadConfig` attribute handler (world.cpp lines 1576-1608), restricted
to the state modelled by `CfgState`: only when `World::loadConfig` succeeds
are the previous workers torn down and `_config` assigned the new document;
the subsequent `applyConfig` reads `_config` but never writes it.  On failure
nothing is touched. -/
def loadConfigTask (env : FileEnv) (filename : String) (st : CfgState) : CfgState :=
  let r := loadConfig env filename st
  if r.1 then { r.2.1 with config := (r.2.2).getD st.config } else st

/-- A World-side shadow object as far as the rename task touches it: an
identity and the name set by `setName`. -/
structure WObj where
  id : Nat
  name : String
deriving DecidableEq

/-- The object tables of the `World`: `_objects` (name to shadow object) and
`_objectDest` (name to destination list). -/
structure ObjTables where
  objects : String → Option WObj
  objectDest : String → Option (List String)

/-- `map.erase(it)` for an iterator found under key `k`. -/
def eraseKey {β : Type} (k : String) (m : String → Option β) : String → Option β :=
  fun x => if x = k then none else m x

/-- `map[k] = v`. -/
def insertKey {β : Type} (k : String) (v : β) (m : String → Option β) : String → Option β :=
  fun x => if x = k then some v else m x

/-- `BaseObject::setName`. -/
def setName (o : WObj) (n : String) : WObj :=
  { o with name := n }

/-- The task queued by the `deleteObject` attribute (world.cpp lines
1426-1447): erase the name from `_objectDest` and `_objects` when found
there, then broadcast `deleteObject` to all peers. -/
def deleteObjectTask (objectName : String) (t : ObjTables) : ObjTables × List Ev :=
  let t1 := match t.objectDest objectName with
    | some _ => { t with objectDest := eraseKey objectName t.objectDest }
    | none => t
  let t2 := match t1.objects objectName with
    | some _ => { t1 with objects := eraseKey objectName t1.objects }
    | none => t1
  (t2, [Ev.msg Dest.all "deleteObject"])

/-- The task queued by the `renameObject` attribute (world.cpp lines
1661-1693): when the old name is found in `_objects`, rename the object,
store it under the new key and erase the old entry; when the old name is also
found in `_objectDest`, erase that entry and set the new key's destination
list to the singleton holding the new name.  In all cases each scene is sent
a `renameObject` message. -/
def renameObjectTask (name newName : String) (scenes : List (String × Int))
    (t : ObjTables) : ObjTables × List Ev :=
  let t' := match t.objects name with
    | none => t
    | some obj =>
      let renamed := setName obj newName
      let objects2 := eraseKey name (insertKey newName renamed t.objects)
      let dest2 := match t.objectDest name with
        | some _ => insertKey newName [newName] (eraseKey name t.objectDest)
        | none => t.objectDest
      { objects := objects2, objectDest := dest2 }
  (t', scenes.map fun s => Ev.msg (Dest.to s.1) "renameObject")

/-- The part of the `World` state the `framerate` attribute touches. -/
structure FpsState where
  worldFramerate : Int
deriving DecidableEq

/-- The `framerate` attribute setter (world.cpp lines 1497-1504):
`_worldFramerate = std::max(1, args[0].as<int>())`. -/
def framerateSet (st : FpsState) (v : Int) : FpsState :=
  { st with worldFramerate := max 1 v }

/-- The `framerate` attribute getter: `(int)_worldFramerate`. -/
def framerateGet (st : FpsState) : Int :=
  st.worldFramerate

/-! Concrete inputs used by witnesses and counterexamples. -/

/-- A local scene entry that spawns and acknowledges in time. -/
def sceneOkA : SceneCfg := ⟨true, true, "a", 1, true, 3, false, ["name"]⟩

/-- A local scene entry that spawns but never acknowledges within 5 s. -/
def sceneTimeoutB : SceneCfg := ⟨true, true, "b", 1, false, -1, false, []⟩

/-- A configuration whose second scene times out. -/
def cfgTimeout : Config := ⟨true, [sceneOkA, sceneTimeoutB], fun _ => none⟩

/-- An initial world state. -/
def stEmpty : WState := ⟨[], "", false⟩

/-- A local scene entry registered under the empty name. -/
def sceneEmptyName : SceneCfg := ⟨true, true, "", 1, true, 7, false, []⟩

/-- A local scene entry named `b`, acknowledged in time. -/
def sceneNamedB : SceneCfg := ⟨true, true, "b", 1, true, 8, false, []⟩

/-- A configuration whose first scene entry carries the empty name. -/
def cfgEmptyFirst : Config := ⟨true, [sceneEmptyName, sceneNamedB], fun _ => none⟩

/-- A scene entry on which a Json accessor throws. -/
def sceneThrows : SceneCfg := ⟨true, true, "x", 1, true, 2, true, []⟩

/-- A configuration whose only scene entry throws. -/
def cfgThrows : Config := ⟨true, [sceneThrows], fun _ => none⟩

/-- A world state holding one worker from a previous apply pass. -/
def stOneWorker : WState := ⟨[("old", 3)], "old", false⟩

/-- Object tables holding one object named `obj` with destination `scene1`. -/
def tablesObj : ObjTables :=
  ⟨insertKey "obj" ⟨1, "obj"⟩ (fun _ => none),
   insertKey "obj" ["scene1"] (fun _ => none)⟩

/-- A run-loop environment with nothing to relay. -/
def runEnvQuiet : RunEnv := ⟨[], [], false⟩

/-- A run-loop state with one updated buffer object and an inner master
scene. -/
def runStOne : RunState := ⟨[⟨"o", "o", true, some 5, []⟩], [("m", -1)], "m", false⟩

/-- Two buffer objects with distinct distant names, the first dirty, the
second clean. -/
def objsTwo : List BufObj := [⟨"a", "a", true, some 7, []⟩, ⟨"b", "b", false, some 8, []⟩]

/-- Two buffer objects sharing the distant name `a`: the first clean, the
second dirty and serializable. -/
def objsDup : List BufObj := [⟨"a", "x", false, some 7, []⟩, ⟨"a", "y", true, some 8, []⟩]

/-- A file environment holding one well-formed configuration file `good`. -/
def fileEnvGood : FileEnv :=
  ⟨fun f => if f = "good" then some "raw" else none,
   fun s => if s = "raw" then some ⟨some SPLASH_FILE_CONFIGURATION⟩ else none,
   fun _ => "dir"⟩

/-- An initial loader state. -/
def cfgStEmpty : CfgState := ⟨⟨none⟩, "", "", ""⟩

/-- An object member of type `image` with one configured attribute. -/
def objImage : ObjCfg := ⟨"o1", true, "image", ["type", "file"]⟩

/-- A per-scene section with one object and one link. -/
def sceneDocOne : SceneDoc := ⟨[objImage], [["o1", "o2"]]⟩

/-- A local scene entry named `s`, acknowledged in time. -/
def sceneNamedS : SceneCfg := ⟨true, true, "s", 1, true, 4, false, []⟩

/-- A configuration with one scene, one object and one link. -/
def cfgOneScene : Config :=
  ⟨true, [sceneNamedS], fun n => if n = "s" then some sceneDocOne else none⟩

/-- A `sync` round-trip event. -/
def IsSyncEv (e : Ev) : Prop :=
  ∃ d, e = Ev.msgAnswer d "sync"

/-- A broadcast `link` message, as derived from the configuration document's
links lists. -/
def IsLinkEv (e : Ev) : Prop :=
  e = Ev.msg Dest.all "link"

/-! Theorems. -/

theorem mem_listFlat {α β : Type} (f : α → List β) (l : List α) (b : β) :
    b ∈ listFlat f l ↔ ∃ a ∈ l, b ∈ f a := by
  induction l with
  | nil => simp [listFlat]
  | cons a rest ih =>
    simp only [listFlat, List.mem_append, ih, List.mem_cons]
    constructor
    · rintro (hb | ⟨a2, h2, hb⟩)
      · exact ⟨a, Or.inl rfl, hb⟩
      · exact ⟨a2, Or.inr h2, hb⟩
    · rintro ⟨a2, h2 | h2, hb⟩
      · exact Or.inl (h2 ▸ hb)
      · exact Or.inr ⟨a2, h2, hb⟩

theorem index_lt_of_split {α : Type} (l1 l2 : List α) (p q : α → Prop)
    (h1 : ∀ e ∈ l1, ¬ q e) (h2 : ∀ e ∈ l2, ¬ p e)
    (i j : Nat) (ei ej : α)
    (hi : (l1 ++ l2)[i]? = some ei) (hj : (l1 ++ l2)[j]? = some ej)
    (hp : p ei) (hq : q ej) : i < j := by
  have hil : i < l1.length := by
    by_contra hge
    push_neg at hge
    rw [List.getElem?_append_right hge] at hi
    exact h2 ei (List.getElem?_mem hi) hp
  have hjl : l1.length ≤ j := by
    by_contra hlt
    push_neg at hlt
    rw [List.getElem?_append_left hlt] at hj
    exact h1 ej (List.getElem?_mem hj) hq
  exact Nat.lt_of_lt_of_le hil hjl

/-- C9: for every integer passed to the `framerate` setter, the stored world
framerate equals `max 1 v`, hence is at least 1 Hz, and the getter returns
that clamped value. -/
theorem framerate_clamped (st : FpsState) (v : Int) :
    (framerateSet st v).worldFramerate = max 1 v ∧
    1 ≤ (framerateSet st v).worldFramerate ∧
    framerateGet (framerateSet st v) = max 1 v := by
  refine ⟨rfl, ?_, rfl⟩
  exact le_max_left 1 v

/-- C10: the `deleteObject` task erases exactly the given name from
`_objects` and `_objectDest`, leaves every other entry unchanged, is a no-op
on both tables when the name is in neither (no error raised), and in all
cases broadcasts `deleteObject` to all peers. -/
theorem deleteObject_exact (name : String) (t : ObjTables) :
    (deleteObjectTask name t).1.objects name = none ∧
    (deleteObjectTask name t).1.objectDest name = none ∧
    (∀ k, k ≠ name → (deleteObjectTask name t).1.objects k = t.objects k ∧
      (deleteObjectTask name t).1.objectDest k = t.objectDest k) ∧
    (t.objects name = none → t.objectDest name = none → (deleteObjectTask name t).1 = t) ∧
    (deleteObjectTask name t).2 = [Ev.msg Dest.all "deleteObject"] := by
  unfold deleteObjectTask
  cases hd : t.objectDest name <;> cases ho : t.objects name <;>
    simp_all [eraseKey]

theorem deleteObject_exact_witness :
    ("other" ≠ "obj") ∧
    (deleteObjectTask "obj" tablesObj).1.objects "other" = tablesObj.objects "other" ∧
    (deleteObjectTask "obj" tablesObj).1.objectDest "other" = tablesObj.objectDest "other" := by
  refine ⟨by decide, ?_, ?_⟩
  · exact ((deleteObject_exact "obj" tablesObj).2.2.1 "other" (by decide)).1
  · exact ((deleteObject_exact "obj" tablesObj).2.2.1 "other" (by decide)).2

/-- C2 counterexample: renaming `obj` (destination set `["scene1"]`) to `new`
does not move the destination set: the entry under the new name is the
singleton `["new"]`, not the old set. -/
theorem renameObject_dest_not_moved :
    tablesObj.objectDest "obj" = some ["scene1"] ∧
    (renameObjectTask "obj" "new" [] tablesObj).1.objectDest "new" = some ["new"] ∧
    ¬ (renameObjectTask "obj" "new" [] tablesObj).1.objectDest "new"
        = tablesObj.objectDest "obj" := by
  decide

/-- C2 amended: for a name present in `_objects` and `_objectDest`, the
`renameObject` task moves the object itself (renamed) to the new key, removes
the old name from both tables, resets the destination entry under the new
name to the singleton `[newName]` (not the old destination set), leaves every
other entry unchanged, and sends every scene a `renameObject` message. -/
theorem renameObject_moves_entry (name newName : String) (scenes : List (String × Int))
    (t : ObjTables) (obj : WObj) (ds : List String)
    (hobj : t.objects name = some obj) (hdest : t.objectDest name = some ds)
    (hne : newName ≠ name) :
    (renameObjectTask name newName scenes t).1.objects name = none ∧
    (renameObjectTask name newName scenes t).1.objects newName
      = some (setName obj newName) ∧
    (renameObjectTask name newName scenes t).1.objectDest name = none ∧
    (renameObjectTask name newName scenes t).1.objectDest newName = some [newName] ∧
    (∀ k, k ≠ name → k ≠ newName →
      (renameObjectTask name newName scenes t).1.objects k = t.objects k ∧
      (renameObjectTask name newName scenes t).1.objectDest k = t.objectDest k) ∧
    (renameObjectTask name newName scenes t).2
      = scenes.map fun s => Ev.msg (Dest.to s.1) "renameObject" := by
  unfold renameObjectTask
  simp only [hobj, hdest]
  have hne2 : name ≠ newName := Ne.symm hne
  refine ⟨?_, ?_, ?_, ?_, ?_, ?_⟩
  · simp [eraseKey]
  · simp [eraseKey, insertKey, hne]
  · simp [eraseKey, insertKey, hne2]
  · simp [insertKey]
  · intro k hk hk2
    constructor <;> simp [eraseKey, insertKey, hk, hk2]
  · trivial

theorem renameObject_moves_entry_witness :
    tablesObj.objects "obj" = some ⟨1, "obj"⟩ ∧ ("new" ≠ "obj") ∧
    (renameObjectTask "obj" "new" [("s", 1)] tablesObj).1.objects "new"
      = some (setName ⟨1, "obj"⟩ "new") := by
  refine ⟨by decide, by decide, ?_⟩
  exact (renameObject_moves_entry "obj" "new" [("s", 1)] tablesObj ⟨1, "obj"⟩ ["scene1"]
    (by decide) (by decide) (by decide)).2.1

/-- C7: `_config` is replaced only wholesale by the `loadConfig` attribute:
when reading, parsing or the configuration-marker check fails the modelled
state (in particular `_config`) is left unchanged, and on success `_config`
becomes exactly the fully parsed document. -/
theorem loadConfig_replaces_wholesale (env : FileEnv) (filename : String) (st : CfgState) :
    (loadJsonFile env filename = none → loadConfigTask env filename st = st) ∧
    (∀ cfg, loadJsonFile env filename = some cfg →
      cfg.description ≠ some SPLASH_FILE_CONFIGURATION →
      loadConfigTask env filename st = st) ∧
    (∀ cfg, loadJsonFile env filename = some cfg →
      cfg.description = some SPLASH_FILE_CONFIGURATION →
      (loadConfigTask env filename st).config = cfg) := by
  refine ⟨?_, ?_, ?_⟩
  · intro h
    simp [loadConfigTask, loadConfig, h]
  · intro cfg h hd
    simp [loadConfigTask, loadConfig, h, hd]
  · intro cfg h hd
    simp [loadConfigTask, loadConfig, h, hd]

theorem alookup_append_of_none {β : Type} (k : String) (l1 l2 : List (String × β))
    (h : alookup k l1 = none) : alookup k (l1 ++ l2) = alookup k l2 := by
  induction l1 with
  | nil => rfl
  | cons e rest ih =>
    by_cases he : e.1 = k
    · simp [alookup, he] at h
    · simp only [alookup, he, if_false] at h
      rw [List.cons_append]
      simp only [alookup, he, if_false]
      exact ih h

theorem clearFlag_eq (o : BufObj) : clearFlag o = { o with wasUpdated := false } := by
  cases o with
  | mk dn n w s a => cases w <;> rfl

theorem alookup_append_of_some {β : Type} (k : String) (l1 l2 : List (String × β))
    (v : β) (h : alookup k l1 = some v) : alookup k (l1 ++ l2) = some v := by
  induction l1 with
  | nil => simp [alookup] at h
  | cons e rest ih =>
    by_cases he : e.1 = k
    · simp only [alookup, he, if_true] at h
      rw [List.cons_append]
      simp only [alookup, he, if_true]
      exact h
    · simp only [alookup, he, if_false] at h
      rw [List.cons_append]
      simp only [alookup, he, if_false]
      exact ih h

theorem fanOutAux_lookup_of_some (objs : List BufObj) (acc : List (String × Option Nat))
    (k : String) (v : Option Nat) (h : alookup k acc = some v) :
    alookup k ((fanOutAux acc objs).1) = some v := by
  induction objs generalizing acc with
  | nil => simpa [fanOutAux] using h
  | cons o rest ih =>
    by_cases hskip : (alookup o.distantName acc).isSome = true
    · simp only [fanOutAux, hskip, if_true]
      exact ih acc h
    · simp only [fanOutAux, hskip, Bool.false_eq_true, if_false]
      exact ih _ (alookup_append_of_some _ _ _ _ h)

theorem fanOutAux_lookup_of_none (objs : List BufObj) (acc : List (String × Option Nat))
    (k : String) (h : alookup k acc = none) :
    alookup k ((fanOutAux acc objs).1) = firstEntry k objs := by
  induction objs generalizing acc with
  | nil => simpa [fanOutAux, firstEntry] using h
  | cons o rest ih =>
    by_cases hskip : (alookup o.distantName acc).isSome = true
    · have hne : ¬ o.distantName = k := by
        intro he
        rw [he, h] at hskip
        simp at hskip
      simp only [fanOutAux, hskip, if_true, firstEntry, hne, if_false]
      exact ih acc h
    · by_cases hke : o.distantName = k
      · have hacc2 : alookup k
            (acc ++ [(o.distantName, if o.wasUpdated then o.serialized else none)])
            = some (if o.wasUpdated then o.serialized else none) := by
          rw [alookup_append_of_none _ _ _ h]
          simp [alookup, hke]
        have hfe : firstEntry k (o :: rest)
            = some (if o.wasUpdated then o.serialized else none) := by
          simp [firstEntry, hke]
        rw [hfe]
        simp only [fanOutAux, hskip, Bool.false_eq_true, if_false]
        exact fanOutAux_lookup_of_some rest _ k _ hacc2
      · have hacc2 : alookup k
            (acc ++ [(o.distantName, if o.wasUpdated then o.serialized else none)])
            = none := by
          rw [alookup_append_of_none _ _ _ h]
          simp [alookup, hke]
        have hfe : firstEntry k (o :: rest) = firstEntry k rest := by
          simp [firstEntry, hke]
        rw [hfe]
        simp only [fanOutAux, hskip, Bool.false_eq_true, if_false]
        exact ih _ hacc2

theorem fanOutAux_getElem (objs : List BufObj) (acc : List (String × Option Nat))
    (i : Nat) (hi : i < objs.length) :
    ((fanOutAux acc objs).2)[i]? =
      some (if (alookup (objs[i].distantName) acc).isSome = true
              ∨ objs[i].distantName ∈ ((objs.take i).map fun o => o.distantName)
            then objs[i] else clearFlag objs[i]) := by
  induction objs generalizing acc i with
  | nil => simp at hi
  | cons o rest ih =>
    by_cases hskip : (alookup o.distantName acc).isSome = true
    · cases i with
      | zero =>
        simp only [fanOutAux, hskip, if_true]
        simp [hskip]
      | succ i =>
        have hi2 : i < rest.length := by simpa using hi
        simp only [fanOutAux, hskip, if_true, List.getElem?_cons_succ]
        rw [ih acc i hi2]
        simp only [List.getElem_cons_succ, List.take_succ_cons, List.map_cons,
          List.mem_cons]
        congr 1
        refine if_congr ?_ rfl rfl
        constructor
        · rintro (h | h)
          · exact Or.inl h
          · exact Or.inr (Or.inr h)
        · rintro (h | h | h)
          · exact Or.inl h
          · refine Or.inl ?_
            rw [h]
            exact hskip
          · exact Or.inr h
    · cases i with
      | zero =>
        simp only [fanOutAux, hskip, Bool.false_eq_true, if_false]
        simp [hskip, clearFlag]
      | succ i =>
        have hi2 : i < rest.length := by simpa using hi
        simp only [fanOutAux, hskip, Bool.false_eq_true, if_false,
          List.getElem?_cons_succ]
        rw [ih (acc ++ [(o.distantName, if o.wasUpdated then o.serialized else none)]) i hi2]
        simp only [List.getElem_cons_succ, List.take_succ_cons, List.map_cons,
          List.mem_cons]
        congr 1
        refine if_congr ?_ rfl rfl
        have hsub : (alookup (rest[i].distantName)
              (acc ++ [(o.distantName, if o.wasUpdated then o.serialized else none)])).isSome
              = true
            ↔ ((alookup (rest[i].distantName) acc).isSome = true
              ∨ rest[i].distantName = o.distantName) := by
          by_cases heq : o.distantName = rest[i].distantName
          · cases hl : alookup (rest[i].distantName) acc with
            | some v =>
              rw [alookup_append_of_some _ _ _ _ hl]
              simp
            | none =>
              rw [alookup_append_of_none _ _ _ hl]
              constructor
              · intro _
                exact Or.inr heq.symm
              · intro _
                simp [alookup, heq]
          · have hne2 : ¬ rest[i].distantName = o.distantName := fun h2 => heq h2.symm
            cases hl : alookup (rest[i].distantName) acc with
            | some v =>
              rw [alookup_append_of_some _ _ _ _ hl]
              simp
            | none =>
              rw [alookup_append_of_none _ _ _ hl]
              simp [alookup, heq, hne2]
        rw [hsub]
        constructor
        · rintro ((h | h) | h)
          · exact Or.inl h
          · exact Or.inr (Or.inl h)
          · exact Or.inr (Or.inr h)
        · rintro (h | h | h)
          · exact Or.inl (Or.inl h)
          · exact Or.inl (Or.inr h)
          · exact Or.inr h

theorem firstEntry_getElem (objs : List BufObj) (i : Nat) (hi : i < objs.length)
    (h : objs[i].distantName ∉ ((objs.take i).map fun o => o.distantName)) :
    firstEntry (objs[i].distantName) objs
      = some (if objs[i].wasUpdated then objs[i].serialized else none) := by
  induction objs generalizing i with
  | nil => simp at hi
  | cons o rest ih =>
    cases i with
    | zero => simp [firstEntry]
    | succ i =>
      have hi2 : i < rest.length := by simpa using hi
      simp only [List.getElem_cons_succ, List.take_succ_cons, List.map_cons,
        List.mem_cons, not_or] at h ⊢
      obtain ⟨hne, hmem⟩ := h
      simp only [firstEntry]
      rw [if_neg (fun he => hne he.symm)]
      exact ih i hi2 hmem

theorem processScenes_trace_shape (l : List SceneCfg) (st : WState) (e : Ev)
    (he : e ∈ (processScenes l st).2.2) : ∃ n a, e = Ev.msg (Dest.to n) a := by
  induction l generalizing st with
  | nil => simp [processScenes] at he
  | cons c rest ih =>
    by_cases h1 : c.throws = true
    · simp [processScenes, h1] at he
    · by_cases h2 : c.isLocal = true
      · by_cases h3 : c.hasName = true
        · by_cases h4 : 0 < c.spawn ∧ c.launched = false
          · simp [processScenes, h1, h2, h3, h4] at he
          · simp only [processScenes, h1, h2, h3, h4, if_false, if_true, not_true] at he
            rcases List.mem_append.mp he with hmap | hrec
            · obtain ⟨p, _, hp⟩ := List.mem_map.mp hmap
              exact ⟨c.name, p, hp.symm⟩
            · exact ih _ hrec
        · simp [processScenes, h1, h2, h3] at he
      · simp only [processScenes, h1, h2, if_false, if_true, not_false_iff] at he
        exact ih st he

theorem addObjectsTrace_shape (scenes : List (String × Int)) (cfg : Config) (e : Ev)
    (he : e ∈ addObjectsTrace scenes cfg) :
    e = Ev.msg Dest.all "add" ∨ e = Ev.msg Dest.all "configurationPath"
      ∨ e = Ev.msg Dest.all "mediaPath" ∨ e = Ev.msg Dest.all "runInBackground" := by
  rw [addObjectsTrace, mem_listFlat] at he
  obtain ⟨s, _, he⟩ := he
  rw [addObjectsSceneTrace] at he
  cases h : cfg.content s.1 with
  | none => rw [h] at he; simp at he
  | some doc =>
    rw [h] at he
    rcases List.mem_append.mp he with h1 | h2
    · rw [mem_listFlat] at h1
      obtain ⟨o, _, h1⟩ := h1
      split at h1
      · simp at h1
      · split at h1
        · simp at h1
          exact Or.inl h1
        · simp at h1
    · simp at h2
      rcases h2 with h2 | h2 | h2 <;> simp [h2]

theorem syncTrace_shape (scenes : List (String × Int)) (e : Ev)
    (he : e ∈ syncTrace scenes) : ∃ n, e = Ev.msgAnswer (Dest.to n) "sync" := by
  rw [syncTrace] at he
  obtain ⟨s, _, hs⟩ := List.mem_map.mp he
  exact ⟨s.1, hs.symm⟩

theorem linkTrace_shape (scenes : List (String × Int)) (cfg : Config) (e : Ev)
    (he : e ∈ linkTrace scenes cfg) : e = Ev.msg Dest.all "link" := by
  rw [linkTrace, mem_listFlat] at he
  obtain ⟨s, _, he⟩ := he
  rw [linkSceneTrace] at he
  cases h : cfg.content s.1 with
  | none => rw [h] at he; simp at he
  | some doc =>
    rw [h, mem_listFlat] at he
    obtain ⟨l, _, he⟩ := he
    split at he
    · simp at he
    · simp at he
      exact he

theorem configureTrace_shape (scenes : List (String × Int)) (cfg : Config) (e : Ev)
    (he : e ∈ configureTrace scenes cfg) : ∃ n a, e = Ev.msg (Dest.to n) a := by
  rw [configureTrace, mem_listFlat] at he
  obtain ⟨s, _, he⟩ := he
  rw [configureSceneTrace] at he
  cases h : cfg.content s.1 with
  | none => rw [h] at he; simp at he
  | some doc =>
    rw [h, mem_listFlat] at he
    obtain ⟨o, _, he⟩ := he
    split at he
    · simp at he
    · rw [mem_listFlat] at he
      obtain ⟨a, _, he⟩ := he
      split at he
      · simp at he
      · simp at he
        exact ⟨o.name, a, he⟩

theorem startPhase_trace_shape (answers : String → Bool) (l : List (String × Int))
    (st : WState) (e : Ev) (he : e ∈ (startPhase answers l st).2) :
    ∃ n, e = Ev.msgAnswer (Dest.to n) "start" := by
  induction l generalizing st with
  | nil => simp [startPhase] at he
  | cons s rest ih =>
    by_cases ha : answers s.1 = true
    · simp only [startPhase, ha, if_true, List.mem_cons] at he
      rcases he with he | he
      · exact ⟨s.1, he⟩
      · exact ih st he
    · simp [startPhase, ha] at he
      exact ⟨s.1, he⟩

/-- C4: in every iteration of the World run loop, the bounded
`waitForBufferSending` call (maximum wait 1e3 milliseconds) occurs strictly
before every `sendBuffer` dispatch of the payloads serialized in that
iteration, so each new payload send is preceded by a completed bounded wait
for the previous sends. -/
theorem wait_before_buffer_sends (env : RunEnv) (st : RunState) (j : Nat)
    (n : String) (p : Nat)
    (h : ((runIteration env st).2)[j]? = some (LEv.sendBuffer n p)) :
    ∃ i, i < j ∧ ((runIteration env st).2)[i]? = some (LEv.wait 1000) := by
  have h0 : ((runIteration env st).2)[0]? = some (LEv.wait 1000) := by
    simp [runIteration]
  refine ⟨0, ?_, h0⟩
  cases j with
  | zero =>
    rw [h0] at h
    simp at h
  | succ j => exact Nat.succ_pos j

theorem wait_before_buffer_sends_witness :
    ((runIteration runEnvQuiet runStOne).2)[1]? = some (LEv.sendBuffer "o" 5) ∧
    ∃ i, i < 1 ∧ ((runIteration runEnvQuiet runStOne).2)[i]? = some (LEv.wait 1000) := by
  refine ⟨by decide, ?_⟩
  exact wait_before_buffer_sends runEnvQuiet runStOne 1 "o" 5 (by decide)

/-- C5 counterexample: with two objects sharing the distant name `a`, the
first clean and the second dirty with a serializable payload, the `emplace`
guard of world.cpp lines 94-96 skips the second object entirely: no payload
is produced at its distant name (the only map entry is the first object's
`nullptr` placeholder) and its dirty flag is not cleared — refuting the
claim's "payload produced if and only if the dirty flag is set" and "flag
cleared after production". -/
theorem serialize_skips_duplicate_name :
    objsDup[1]? = some ⟨"a", "y", true, some 8, []⟩ ∧
    producedPayload (fanOut objsDup).1 "a" = none ∧
    (fanOut objsDup).1 = [("a", none)] ∧
    ((fanOut objsDup).2)[1]? = some ⟨"a", "y", true, some 8, []⟩ := by
  decide

/-- C5 amended: in the fan-out phase payload production is keyed by distant
name and only the first object of each distant name is processed.  For an
object whose distant name occurs at no earlier position of the table, a
payload is recorded exactly when its dirty flag is set, the flag is cleared
afterwards, and — when `serialize` yields a payload, as the spec's payload
production always does — a payload is produced if and only if the flag was
set.  An object whose distant name was already emplaced by an earlier object
is skipped whole: it is returned unchanged (its dirty flag not cleared) and
contributes no payload — the entry under that name is always the first
carrier's. -/
theorem serialize_iff_dirty_amended (objs : List BufObj) (i : Nat)
    (hi : i < objs.length) :
    (objs[i].distantName ∉ ((objs.take i).map fun o => o.distantName) →
      producedPayload (fanOut objs).1 (objs[i].distantName)
        = (if objs[i].wasUpdated then objs[i].serialized else none) ∧
      ((fanOut objs).2)[i]? = some { objs[i] with wasUpdated := false } ∧
      (objs[i].serialized.isSome = true →
        ((producedPayload (fanOut objs).1 (objs[i].distantName)).isSome = true
          ↔ objs[i].wasUpdated = true))) ∧
    (objs[i].distantName ∈ ((objs.take i).map fun o => o.distantName) →
      ((fanOut objs).2)[i]? = some (objs[i])) ∧
    producedPayload (fanOut objs).1 (objs[i].distantName)
      = (firstEntry (objs[i].distantName) objs).bind id := by
  have hall : producedPayload (fanOut objs).1 (objs[i].distantName)
      = (firstEntry (objs[i].distantName) objs).bind id := by
    unfold producedPayload fanOut
    rw [fanOutAux_lookup_of_none objs [] _ rfl]
  have hget := fanOutAux_getElem objs [] i hi
  refine ⟨?_, ?_, hall⟩
  · intro h
    have h1 : producedPayload (fanOut objs).1 (objs[i].distantName)
        = (if objs[i].wasUpdated then objs[i].serialized else none) := by
      rw [hall, firstEntry_getElem objs i hi h]
      rfl
    refine ⟨h1, ?_, ?_⟩
    · rw [fanOut]
      rw [hget]
      rw [if_neg, clearFlag_eq]
      rintro (hc | hc)
      · simp [alookup] at hc
      · exact h hc
    · intro hs
      rw [h1]
      cases hu : objs[i].wasUpdated <;> simp [hu, hs]
  · intro h
    rw [fanOut]
    rw [hget]
    rw [if_pos (Or.inr h)]

theorem serialize_iff_dirty_amended_witness :
    (objsTwo[0].distantName ∉ ((objsTwo.take 0).map fun o => o.distantName)) ∧
    producedPayload (fanOut objsTwo).1 "a" = some 7 := by
  refine ⟨by decide, ?_⟩
  exact ((serialize_iff_dirty_amended objsTwo 0 (by decide)).1 (by decide)).1

theorem processScenes_cons_skip (c : SceneCfg) (rest : List SceneCfg) (st : WState)
    (ht : c.throws = false) (hl : c.isLocal = false) :
    processScenes (c :: rest) st = processScenes rest st := by
  simp [processScenes, ht, hl]

theorem processScenes_cons_reg (c : SceneCfg) (rest : List SceneCfg) (st : WState)
    (ht : c.throws = false) (hl : c.isLocal = true) (hn : c.hasName = true)
    (hs : 0 < c.spawn → c.launched = true) :
    processScenes (c :: rest) st =
      ((processScenes rest (registerScene c st)).1,
       (processScenes rest (registerScene c st)).2.1,
       (c.params.map fun p => Ev.msg (Dest.to c.name) p)
         ++ (processScenes rest (registerScene c st)).2.2) := by
  have hcond : ¬ (0 < c.spawn ∧ c.launched = false) := by
    rintro ⟨h1, h2⟩
    rw [hs h1] at h2
    cases h2
  simp [processScenes, ht, hl, hn, hcond]

theorem processScenes_append (pre rest : List SceneCfg) (st : WState)
    (h : ∀ p ∈ pre, Proceeds p) :
    processScenes (pre ++ rest) st =
      ((processScenes rest (processScenes pre st).1).1,
       (processScenes rest (processScenes pre st).1).2.1,
       (processScenes pre st).2.2
         ++ (processScenes rest (processScenes pre st).1).2.2) := by
  induction pre generalizing st with
  | nil => simp [processScenes]
  | cons c pre ih =>
    obtain ⟨ht, hl⟩ := h c (by simp)
    have h' : ∀ p ∈ pre, Proceeds p := fun p hp => h p (List.mem_cons_of_mem _ hp)
    by_cases hloc : c.isLocal = true
    · obtain ⟨hn, hs⟩ := hl hloc
      rw [List.cons_append, processScenes_cons_reg c (pre ++ rest) st ht hloc hn hs,
        processScenes_cons_reg c pre st ht hloc hn hs, ih (registerScene c st) h']
      simp [List.append_assoc]
    · have hl2 : c.isLocal = false := by
        cases hlv : c.isLocal
        · rfl
        · exact absurd hlv hloc
      rw [List.cons_append, processScenes_cons_skip c (pre ++ rest) st ht hl2,
        processScenes_cons_skip c pre st ht hl2]
      exact ih st h'

theorem processScenes_done (l : List SceneCfg) (st : WState)
    (h : ∀ p ∈ l, Proceeds p) :
    (processScenes l st).2.1 = LoopExit.done := by
  have happ := processScenes_append l [] st h
  have : processScenes (l ++ []) st = processScenes l st := by rw [List.append_nil]
  rw [this] at happ
  rw [happ]
  rfl

theorem processScenes_master_stable (l : List SceneCfg) (st : WState)
    (h : st.masterSceneName ≠ "") :
    (processScenes l st).1.masterSceneName = st.masterSceneName := by
  induction l generalizing st with
  | nil => rfl
  | cons c rest ih =>
    by_cases h1 : c.throws = true
    · simp [processScenes, h1]
    · have h1f : c.throws = false := by
        cases hv : c.throws
        · rfl
        · exact absurd hv h1
      by_cases h2 : c.isLocal = true
      · by_cases h3 : c.hasName = true
        · by_cases h4 : 0 < c.spawn ∧ c.launched = false
          · simp [processScenes, h1f, h2, h3, h4]
          · have hm : (registerScene c st).masterSceneName = st.masterSceneName := by
              simp [registerScene, h]
            have hrec := ih (registerScene c st) (by rw [hm]; exact h)
            simp [processScenes, h1f, h2, h3, h4, hrec, hm]
        · simp [processScenes, h1f, h2, h3]
      · simp [processScenes, h1f, h2, ih st h]

theorem processScenes_master_empty (l : List SceneCfg) (st : WState)
    (hm : st.masterSceneName = "")
    (h : ∀ p ∈ l, Proceeds p ∧ (p.isLocal = true → p.name = "")) :
    (processScenes l st).1.masterSceneName = "" := by
  induction l generalizing st with
  | nil => exact hm
  | cons c rest ih =>
    obtain ⟨⟨ht, hl⟩, hn⟩ := h c (by simp)
    have h' := fun p hp => h p (List.mem_cons_of_mem _ hp)
    by_cases hloc : c.isLocal = true
    · obtain ⟨hna, hsp⟩ := hl hloc
      rw [processScenes_cons_reg c rest st ht hloc hna hsp]
      refine ih (registerScene c st) ?_ h'
      simp [registerScene, hm, hn hloc]
    · have hl2 : c.isLocal = false := by
        cases hlv : c.isLocal
        · rfl
        · exact absurd hlv hloc
      rw [processScenes_cons_skip c rest st ht hl2]
      exact ih st hm h'

theorem startPhase_master (answers : String → Bool) (l : List (String × Int)) (st : WState) :
    (startPhase answers l st).1.masterSceneName = st.masterSceneName := by
  induction l generalizing st with
  | nil => rfl
  | cons s rest ih =>
    by_cases ha : answers s.1 = true
    · simp [startPhase, ha, ih st]
    · simp [startPhase, ha]

theorem applyConfig_master (cfg : Config) (answers : String → Bool) (st : WState)
    (hcfg : cfg.hasScenes = true) :
    (applyConfig cfg answers st).1.masterSceneName
      = (processScenes cfg.scenes (clearState st)).1.masterSceneName := by
  unfold applyConfig
  rcases h : processScenes cfg.scenes (clearState st) with ⟨st1, ex, tr⟩
  cases ex <;> simp [hcfg, h, startPhase_master]

/-- C1: during a configuration apply, when every earlier scene entry was
processed without incident and a spawned scene never delivers the
`sceneLaunched` acknowledgment within the 5 s timeout, `_quit` is set and
`applyConfig` returns at once: the resulting state is exactly the state after
the earlier entries with the quit flag raised — the timing-out entry and
every later entry register nothing in `_scenes` — and the message trace stops
at the earlier entries (no sync, link, configure or start message follows). -/
theorem applyConfig_spawn_timeout_aborts (cfg : Config) (answers : String → Bool)
    (st : WState) (pre post : List SceneCfg) (c : SceneCfg)
    (hs : cfg.scenes = pre ++ c :: post) (hcfg : cfg.hasScenes = true)
    (hpre : ∀ p ∈ pre, Proceeds p)
    (hthrows : c.throws = false) (hlocal : c.isLocal = true) (hname : c.hasName = true)
    (hspawn : 0 < c.spawn) (hack : c.launched = false) :
    applyConfig cfg answers st =
      ({ (processScenes pre (clearState st)).1 with quit := true },
       (processScenes pre (clearState st)).2.2) := by
  have hstep : processScenes (c :: post) ((processScenes pre (clearState st)).1)
      = ({ (processScenes pre (clearState st)).1 with quit := true },
         LoopExit.ret, []) := by
    simp [processScenes, hthrows, hlocal, hname, hspawn, hack]
  have happ := processScenes_append pre (c :: post) (clearState st) hpre
  rw [hstep] at happ
  unfold applyConfig
  rw [hs]
  simp [hcfg, happ]

theorem applyConfig_spawn_timeout_aborts_witness :
    (∀ p ∈ [sceneOkA], Proceeds p) ∧ sceneTimeoutB.launched = false ∧
    applyConfig cfgTimeout (fun _ => true) stEmpty =
      ({ (processScenes [sceneOkA] (clearState stEmpty)).1 with quit := true },
       (processScenes [sceneOkA] (clearState stEmpty)).2.2) := by
  refine ⟨by decide, rfl, ?_⟩
  exact applyConfig_spawn_timeout_aborts cfgTimeout (fun _ => true) stEmpty
    [sceneOkA] [] sceneTimeoutB rfl rfl (by decide) rfl rfl rfl (by decide) rfl

/-- C3 counterexample: an exception during the apply pass does not leave
`_scenes` at its pre-apply contents — `applyConfig` clears `_scenes` before
the try block, so after the caught exception the previous worker is gone. -/
theorem applyConfig_exn_clears_scenes :
    sceneThrows.throws = true ∧ stOneWorker.scenes = [("old", 3)] ∧
    ¬ (applyConfig cfgThrows (fun _ => true) stOneWorker).1.scenes
        = stOneWorker.scenes := by
  decide

/-- C3 amended: an exception raised while a scene entry is processed is
caught at the apply boundary and the pass is aborted — `applyConfig` returns
normally, no later entry or phase runs — but `_scenes` is not the pre-apply
worker set: it was cleared at the start of `applyConfig` and holds exactly
the workers registered earlier in this same pass (which are left as-is, not
destroyed). -/
theorem applyConfig_exn_aborts (cfg : Config) (answers : String → Bool) (st : WState)
    (pre post : List SceneCfg) (c : SceneCfg)
    (hs : cfg.scenes = pre ++ c :: post) (hcfg : cfg.hasScenes = true)
    (hpre : ∀ p ∈ pre, Proceeds p) (hthrows : c.throws = true) :
    applyConfig cfg answers st =
      ((processScenes pre (clearState st)).1,
       (processScenes pre (clearState st)).2.2) := by
  have hstep : processScenes (c :: post) ((processScenes pre (clearState st)).1)
      = ((processScenes pre (clearState st)).1, LoopExit.exn, []) := by
    simp [processScenes, hthrows]
  have happ := processScenes_append pre (c :: post) (clearState st) hpre
  rw [hstep] at happ
  unfold applyConfig
  rw [hs]
  simp [hcfg, happ]

theorem applyConfig_exn_aborts_witness :
    sceneThrows.throws = true ∧
    applyConfig cfgThrows (fun _ => true) stEmpty = (clearState stEmpty, []) := by
  refine ⟨rfl, ?_⟩
  exact applyConfig_exn_aborts cfgThrows (fun _ => true) stEmpty
    [] [] sceneThrows rfl rfl (by simp) rfl

/-- C8 counterexample: with a first scene entry registered under the empty
name, `_masterSceneName` after the apply pass is the name of the second
entry, not of the first entry processed — a later entry overwrote it. -/
theorem masterScene_overwritten :
    cfgEmptyFirst.scenes.head?.map (fun c => c.name) = some "" ∧
    (applyConfig cfgEmptyFirst (fun _ => true) stEmpty).1.scenes
      = [("", 7), ("b", 8)] ∧
    (applyConfig cfgEmptyFirst (fun _ => true) stEmpty).1.masterSceneName = "b" ∧
    ¬ ("b" : String) = "" := by
  decide

/-- C8 amended: exactly one worker is designated master, namely the first
scene registered with a nonempty name — the empty string being the no-master
sentinel, scenes registered under the empty name are passed over — and no
later entry of the pass overwrites it; when every scene name is nonempty this
is the first scene declared. -/
theorem masterScene_first_nonempty (cfg : Config) (answers : String → Bool) (st : WState)
    (pre post : List SceneCfg) (c : SceneCfg)
    (hs : cfg.scenes = pre ++ c :: post) (hcfg : cfg.hasScenes = true)
    (hpre : ∀ p ∈ pre, Proceeds p ∧ (p.isLocal = true → p.name = ""))
    (hc : Proceeds c) (hl : c.isLocal = true) (hn : c.name ≠ "") :
    (applyConfig cfg answers st).1.masterSceneName = c.name := by
  obtain ⟨ht, hrest⟩ := hc
  obtain ⟨hna, hsp⟩ := hrest hl
  have hpre1 : ∀ p ∈ pre, Proceeds p := fun p hp => (hpre p hp).1
  have hempty : (processScenes pre (clearState st)).1.masterSceneName = "" :=
    processScenes_master_empty pre (clearState st) rfl hpre
  have hreg : (registerScene c (processScenes pre (clearState st)).1).masterSceneName
      = c.name := by
    simp [registerScene, hempty]
  have hstable := processScenes_master_stable post
    (registerScene c (processScenes pre (clearState st)).1) (by rw [hreg]; exact hn)
  have hcons := processScenes_cons_reg c post (processScenes pre (clearState st)).1
    ht hl hna hsp
  have happ := processScenes_append pre (c :: post) (clearState st) hpre1
  rw [applyConfig_master cfg answers st hcfg, hs, happ, hcons]
  simp only []
  rw [hstable, hreg]

theorem masterScene_first_nonempty_witness :
    (∀ p ∈ [sceneEmptyName], Proceeds p ∧ (p.isLocal = true → p.name = "")) ∧
    sceneNamedB.name ≠ "" ∧
    (applyConfig cfgEmptyFirst (fun _ => true) stEmpty).1.masterSceneName
      = sceneNamedB.name := by
  refine ⟨by decide, by decide, ?_⟩
  exact masterScene_first_nonempty cfgEmptyFirst (fun _ => true) stEmpty
    [sceneEmptyName] [] sceneNamedB rfl rfl (by decide) (by decide) rfl (by decide)

theorem loadConfig_replaces_wholesale_witness :
    loadJsonFile fileEnvGood "good" = some ⟨some SPLASH_FILE_CONFIGURATION⟩ ∧
    (loadConfigTask fileEnvGood "good" cfgStEmpty).config
      = ⟨some SPLASH_FILE_CONFIGURATION⟩ := by
  refine ⟨by decide, ?_⟩
  exact (loadConfig_replaces_wholesale fileEnvGood "good" cfgStEmpty).2.2
    ⟨some SPLASH_FILE_CONFIGURATION⟩ (by decide) rfl

/-- C6: during a configuration apply pass whose scene loop runs through, a
`sync` request/response round trip is completed with every worker registered
in `_scenes`, and every such sync event occurs strictly before every `link`
message derived from the configuration document's links lists. -/
theorem sync_before_links (cfg : Config) (answers : String → Bool) (st : WState)
    (hcfg : cfg.hasScenes = true) (hpre : ∀ p ∈ cfg.scenes, Proceeds p) :
    (∀ s ∈ (processScenes cfg.scenes (clearState st)).1.scenes,
      Ev.msgAnswer (Dest.to s.1) "sync" ∈ (applyConfig cfg answers st).2) ∧
    (∀ (i j : Nat) (d : Dest),
      ((applyConfig cfg answers st).2)[i]? = some (Ev.msgAnswer d "sync") →
      ((applyConfig cfg answers st).2)[j]? = some (Ev.msg Dest.all "link") →
      i < j) := by
  have hdone := processScenes_done cfg.scenes (clearState st) hpre
  rcases hps : processScenes cfg.scenes (clearState st) with ⟨st1, ex, tr1⟩
  rw [hps] at hdone
  simp only at hdone
  subst hdone
  have htr : (applyConfig cfg answers st).2
      = (tr1 ++ ([Ev.msg (Dest.to st1.masterSceneName) "setMaster"]
          ++ (addObjectsTrace st1.scenes cfg ++ syncTrace st1.scenes)))
        ++ (linkTrace st1.scenes cfg ++ (configureTrace st1.scenes cfg
          ++ (startPhase answers st1.scenes st1).2)) := by
    simp [applyConfig, hcfg, hps, List.append_assoc]
  constructor
  · intro s hs
    have hs2 : s ∈ st1.scenes := hs
    rw [htr]
    have hmem : Ev.msgAnswer (Dest.to s.1) "sync" ∈ syncTrace st1.scenes := by
      rw [syncTrace]
      exact List.mem_map_of_mem _ hs2
    simp [List.mem_append, hmem]
  · intro i j d hi hj
    rw [htr] at hi hj
    refine index_lt_of_split _ _ IsSyncEv IsLinkEv ?_ ?_ i j _ _ hi hj ⟨d, rfl⟩ rfl
    · intro e hee hlink
      rw [IsLinkEv] at hlink
      subst hlink
      rcases List.mem_append.mp hee with h | h
      · have h' : Ev.msg Dest.all "link" ∈ (processScenes cfg.scenes (clearState st)).2.2 := by
          rw [hps]
          exact h
        obtain ⟨n, a, hna⟩ := processScenes_trace_shape _ _ _ h'
        simp at hna
      · rcases List.mem_append.mp h with h | h
        · simp at h
        · rcases List.mem_append.mp h with h | h
          · rcases addObjectsTrace_shape _ _ _ h with h | h | h | h <;>
              exact absurd h (by decide)
          · obtain ⟨n, hn⟩ := syncTrace_shape _ _ h
            simp at hn
    · intro e hee hsync
      obtain ⟨d2, hd2⟩ := hsync
      subst hd2
      rcases List.mem_append.mp hee with h | h
      · have hl := linkTrace_shape _ _ _ h
        simp at hl
      · rcases List.mem_append.mp h with h | h
        · obtain ⟨n, a, hna⟩ := configureTrace_shape _ _ _ h
          simp at hna
        · obtain ⟨n, hn⟩ := startPhase_trace_shape _ _ _ _ h
          simp at hn

theorem sync_before_links_witness :
    (∀ p ∈ cfgOneScene.scenes, Proceeds p) ∧
    (∀ s ∈ (processScenes cfgOneScene.scenes (clearState stEmpty)).1.scenes,
      Ev.msgAnswer (Dest.to s.1) "sync"
        ∈ (applyConfig cfgOneScene (fun _ => true) stEmpty).2) ∧
    (∀ (i j : Nat) (d : Dest),
      ((applyConfig cfgOneScene (fun _ => true) stEmpty).2)[i]?
        = some (Ev.msgAnswer d "sync") →
      ((applyConfig cfgOneScene (fun _ => true) stEmpty).2)[j]?
        = some (Ev.msg Dest.all "link") → i < j) := by
  refine ⟨by decide, ?_, ?_⟩
  · exact (sync_before_links cfgOneScene (fun _ => true) stEmpty rfl (by decide)).1
  · exact (sync_before_links cfgOneScene (fun _ => true) stEmpty rfl (by decide)).2

end Splash
